import Mathlib

/-!
Verification of the recurrent trajectory buffer core of
`learned-planners-stable-baselines`.

The development shallowly embeds:

* the Time-Contiguous Batch Index (`TimeContiguousBatchesDataset`,
  modelled from the spec because `stable_baselines3/common/recurrent/buffers.py`
  is not among the provided sources; its test
  `tests/test_buffers.py::test_time_contiguous_batches_dataset` is),
* the sequence replayer `RecurrentFeaturesExtractor._process_sequence`
  from `stable_baselines3/common/recurrent/torch_layers.py`,
* the evaluation loop `evaluate_policy` from
  `stable_baselines3/common/evaluation.py`.

Machine tensors are embedded as (nested) lists of integers; tensor shapes
become list-length predicates; Python exceptions become `Except` errors.
-/

namespace SB3

/-- Modelled from the spec: `TimeContiguousBatchesDataset`
(`stable_baselines3/common/recurrent/buffers.py` is not among the provided
source files; only its test is).  Per §4.1 of the spec it is determined by
`num_envs` (E), `num_time` (T), `batch_time` (L) and a per-environment
skew vector. -/
structure TimeContiguousBatchesDataset where
  num_envs : Nat
  num_time : Nat
  batch_time : Nat
  skew : List Nat
deriving Repr, DecidableEq

namespace TimeContiguousBatchesDataset

/-- Modelled from the spec: dataset length,
`num_time_batches · E` with `num_time_batches = T // L`. -/
def len (d : TimeContiguousBatchesDataset) : Nat :=
  (d.num_time / d.batch_time) * d.num_envs

/-- Modelled from the spec: for batch id `i`,
`time_batch = (i // E) · L`, `env = i % E`, `s = skew[env]`, and the
sub-sequence's flat grid indices are `env + E·((time_batch + j + s) mod T)`
for `j = 0 … L-1`. -/
def getItem (d : TimeContiguousBatchesDataset) (i : Nat) : List Nat :=
  let time_batch := (i / d.num_envs) * d.batch_time
  let env := i % d.num_envs
  let s := d.skew.getD env 0
  (List.range d.batch_time).map
    (fun j => env + d.num_envs * ((time_batch + j + s) % d.num_time))

/-- Modelled from the spec: `get_batch_and_init_times(batch_ids)` returns
(a) the `(time, env)` pair of each sub-sequence's first step and (b) the full
`L × |batch_ids|` matrix of flat grid indices, computed by one vectorized
formula rather than per-item calls to `getItem`. -/
def get_batch_and_init_times (d : TimeContiguousBatchesDataset)
    (batch_ids : List Nat) : (List Nat × List Nat) × List (List Nat) :=
  let envs := batch_ids.map (fun i => i % d.num_envs)
  let start_times := batch_ids.map
    (fun i => ((i / d.num_envs) * d.batch_time + d.skew.getD (i % d.num_envs) 0)
      % d.num_time)
  let collective := (List.range d.batch_time).map
    (fun j => batch_ids.map
      (fun i => i % d.num_envs + d.num_envs *
        (((i / d.num_envs) * d.batch_time + j + d.skew.getD (i % d.num_envs) 0)
          % d.num_time)))
  ((start_times, envs), collective)

/-- The matrix obtained by looking every batch id up individually with
`getItem` and stacking the results column-wise (what the test computes as
`th.vstack([d[b] for b in batch]).T`). -/
def stackedItems (d : TimeContiguousBatchesDataset)
    (batch_ids : List Nat) : List (List Nat) :=
  (List.range d.batch_time).map
    (fun j => batch_ids.map (fun i => (d.getItem i).getD j 0))

/-- All flat grid indices produced over the whole dataset, in batch-id order. -/
def allIndices (d : TimeContiguousBatchesDataset) : List Nat :=
  (List.range d.len).flatMap d.getItem

/-- Whether time step `t` of environment `e` is sampled by some batch id. -/
def sampledTime (d : TimeContiguousBatchesDataset) (e t : Nat) : Bool :=
  (List.range d.len).any
    (fun i => (d.getItem i).any (fun x => x = e + d.num_envs * t))

end TimeContiguousBatchesDataset

/-! ## Sequence replayer: `RecurrentFeaturesExtractor._process_sequence`
(`stable_baselines3/common/recurrent/torch_layers.py`, lines 41-70).

A hidden-state tree is embedded through its `tree_flatten` view: a list of
leaves, each leaf a 3-d tensor `(n_layers, batch, hidden)` given as nested
lists of integers.  Python exceptions become `Except` errors. -/

/-- A hidden-state leaf tensor of nominal shape `(n_layers, batch, hidden)`. -/
abbrev StateLeaf := List (List (List Int))

/-- `l` is a rectangular 3-d tensor of shape `(a, b, c)`.  Torch tensors are
always rectangular, so `state.shape == (a, b, c)` is exactly this predicate. -/
def HasShape3 (l : StateLeaf) (a b c : Nat) : Prop :=
  l.length = a ∧ ∀ x ∈ l, x.length = b ∧ ∀ y ∈ x, y.length = c

instance (l : StateLeaf) (a b c : Nat) : Decidable (HasShape3 l a b c) := by
  unfold HasShape3; infer_instance

/-- The `assert state.shape == (rnn.num_layers, batch_sz, rnn.hidden_size)`
check of `_reset_state_component`, as a boolean. -/
def shapeCheck (l : StateLeaf) (a b c : Nat) : Bool :=
  decide (HasShape3 l a b c)

/-- The shape data of `th.nn.RNNBase` used by `_process_sequence`. -/
structure RNNBase where
  num_layers : Nat
  hidden_size : Nat

/-- Exceptions `_process_sequence` can raise. -/
inductive ReplayError where
  /-- unpacking `(state_example, *_)` of an empty `tree_flatten` result -/
  | emptyStateTree : ReplayError
  /-- a failed `assert` statement -/
  | assertionFailed : ReplayError
  /-- Python `//` with a zero divisor (`ZeroDivisionError`) -/
  | divisionByZero : ReplayError
  /-- `Tensor.view` with an incompatible element count -/
  | viewSizeMismatch : ReplayError
  /-- indexing `episode_starts[0]` of an empty time axis -/
  | indexError : ReplayError
  /-- the `NotImplementedError` raised for a mid-sequence reset; the spec
  names this condition `UnsupportedMidSequenceReset` -/
  | unsupportedMidSequenceReset : ReplayError
deriving Repr, DecidableEq

/-- `flat.view((rows, cols))` on the leading axis of a flat tensor:
entry `(r, c)` is `flat[r·cols + c]`. -/
def view2 (flat : List α) [Inhabited α] (rows cols : Nat) : List (List α) :=
  (List.range rows).map
    (fun r => (List.range cols).map (fun c => flat.getD (r * cols + c) default))

/-- `m.swapaxes(0, 1)` for a matrix with `cols` columns. -/
def swapaxes01 (m : List (List α)) [Inhabited α] (cols : Nat) : List (List α) :=
  (List.range cols).map (fun c => m.map (fun row => row.getD c default))

/-- `_reset_state_component` without its `assert`: multiply the leaf by the
mask `first_state_is_not_reset.view((1, batch_sz, 1))`, which broadcasts over
the layer and hidden axes, so entry `(l, b, h)` is scaled by `mask[b]`. -/
def resetStateComponent (first_state_is_not_reset : List Bool)
    (state : StateLeaf) : StateLeaf :=
  state.map (fun layer =>
    List.zipWith (fun keep row => row.map (fun v => v * (if keep then 1 else 0)))
      first_state_is_not_reset layer)

/-- The result of the preparation phase of `_process_sequence`: everything
before the call `rnn(seq_inputs, init_state)`. -/
structure PreparedSequence where
  batch_sz : Nat
  seq_len : Nat
  /-- time-major inputs `(seq_len, batch_sz)`, feature axis abstracted away -/
  seq_inputs : List (List Int)
  /-- the (possibly reset) initial state handed to the recurrent network -/
  init_state : List StateLeaf

/-- The preparation phase of `_process_sequence` (torch_layers.py lines
45-65): read `n_layers` and `batch_sz` off the first leaf, assert
`n_layers == rnn.num_layers`, reshape inputs and episode starts to time-major,
raise on a mid-sequence reset, and apply `_reset_state_component` to every
leaf (the per-leaf shape `assert` included). -/
def prepareInitState (rnn : RNNBase) (inputs : List Int)
    (init_state : List StateLeaf) (episode_starts : List Bool) :
    Except ReplayError PreparedSequence :=
  match init_state with
  | [] => .error .emptyStateTree
  | state_example :: rest =>
    let n_layers := state_example.length
    let batch_sz := (state_example.headD []).length
    if n_layers ≠ rnn.num_layers then .error .assertionFailed
    else if batch_sz = 0 then .error .divisionByZero
    else
      let seq_len := inputs.length / batch_sz
      if inputs.length ≠ batch_sz * seq_len then .error .viewSizeMismatch
      else if episode_starts.length ≠ batch_sz * seq_len then .error .viewSizeMismatch
      else
        let seq_inputs := swapaxes01 (view2 inputs batch_sz seq_len) seq_len
        let ep := swapaxes01 (view2 episode_starts batch_sz seq_len) seq_len
        if (ep.drop 1).any (fun row => row.any id) then
          .error .unsupportedMidSequenceReset
        else if seq_len = 0 then .error .indexError
        else
          let first_state_is_not_reset := (ep.headD []).map (fun b => !b)
          if (state_example :: rest).all
              (fun leaf => shapeCheck leaf rnn.num_layers batch_sz rnn.hidden_size) then
            .ok ⟨batch_sz, seq_len, seq_inputs,
              (state_example :: rest).map (resetStateComponent first_state_is_not_reset)⟩
          else .error .assertionFailed

/-- `RecurrentFeaturesExtractor._process_sequence`.  The recurrent forward
pass `rnn(seq_inputs, init_state)` is an external collaborator, passed in as
`apply`; afterwards the time-major output is transposed back and flattened to
batch-major, `(seq_len, batch_sz, …) -> (batch_sz, seq_len, …) ->
(batch_sz · seq_len, …)`. -/
def processSequence (rnn : RNNBase)
    (apply : List (List Int) → List StateLeaf → List (List Int) × List StateLeaf)
    (inputs : List Int) (init_state : List StateLeaf)
    (episode_starts : List Bool) :
    Except ReplayError (List Int × List StateLeaf) :=
  match prepareInitState rnn inputs init_state episode_starts with
  | .error e => .error e
  | .ok p =>
    let out := apply p.seq_inputs p.init_state
    .ok ((swapaxes01 out.1 p.batch_sz).flatten, out.2)

/-- Entry `(li, l, b, h)` of a list of state leaves: leaf `li`, layer `l`,
batch row `b`, hidden coordinate `h`. -/
def stateEntry (s : List StateLeaf) (li l b h : Nat) : Int :=
  (((s.getD li []).getD l []).getD b []).getD h 0

/-- The value `first_state_is_not_reset = ~episode_starts[0]` computed by
`_process_sequence` from the time-major reshape of the flags. -/
def firstStepMask (episode_starts : List Bool) (batch_sz seq_len : Nat) :
    List Bool :=
  ((swapaxes01 (view2 episode_starts batch_sz seq_len) seq_len).headD []).map
    (fun b => !b)

/-! ## Evaluation loop: `evaluate_policy`
(`stable_baselines3/common/evaluation.py`).

Per-environment tensors are embedded as functions from the environment
index; the policy, the environment stepping and the rendering are external,
so one `while` iteration is driven by the `(rewards, dones)` pair returned
by `env.step`.  Only the no-Monitor branch is modelled. -/

/-- `(n_eval_episodes + i) // n_envs`, the target for environment `i`. -/
def targetsFun (n_eval_episodes n_envs : Nat) (i : Nat) : Nat :=
  (n_eval_episodes + i) / n_envs

/-- The tensor
`[(n_eval_episodes + i) // n_envs for i in range(n_envs)]`
built by `evaluate_policy` (evaluation.py line 96). -/
def episode_count_targets (n_eval_episodes n_envs : Nat) : List Nat :=
  (List.range n_envs).map (targetsFun n_eval_episodes n_envs)

/-- The bookkeeping state of the `evaluate_policy` loop. -/
structure EvalState where
  episode_counts : Nat → Nat
  episode_rewards : List Int
  episode_lengths : List Nat
  current_rewards : Nat → Int
  current_lengths : Nat → Nat
  episode_starts : Nat → Bool

/-- State before the `while` loop: zero counts and accumulators, all-true
episode starts, empty record lists. -/
def initialEvalState : EvalState :=
  ⟨fun _ => 0, [], [], fun _ => 0, fun _ => 0, fun _ => true⟩

/-- The body of `for i in range(n_envs)` (evaluation.py lines 121-150),
no-Monitor branch: environments that already reached their target are
skipped entirely; a done in an active environment records the accumulated
reward and length, bumps the count and resets the accumulators. -/
def stepEnvBody (targets : Nat → Nat) (dones : Nat → Bool)
    (st : EvalState) (i : Nat) : EvalState :=
  if st.episode_counts i < targets i then
    let st1 := { st with episode_starts := Function.update st.episode_starts i (dones i) }
    if dones i then
      { st1 with
        episode_rewards := st1.episode_rewards ++ [st1.current_rewards i],
        episode_lengths := st1.episode_lengths ++ [st1.current_lengths i],
        episode_counts := Function.update st1.episode_counts i (st1.episode_counts i + 1),
        current_rewards := Function.update st1.current_rewards i 0,
        current_lengths := Function.update st1.current_lengths i 0 }
    else st1
  else st

/-- One iteration of the `while` loop: add the step rewards into the
accumulators, increment the lengths, then run the per-environment loop. -/
def evalWhileBody (n_envs : Nat) (targets : Nat → Nat)
    (st : EvalState) (step : (Nat → Int) × (Nat → Bool)) : EvalState :=
  let st1 := { st with
    current_rewards := fun i => st.current_rewards i + step.1 i,
    current_lengths := fun i => st.current_lengths i + 1 }
  (List.range n_envs).foldl (stepEnvBody targets step.2) st1

/-- The bookkeeping effect of running the `while` loop of `evaluate_policy`
over a trace of `env.step` outcomes. -/
def evalRun (n_eval_episodes n_envs : Nat)
    (steps : List ((Nat → Int) × (Nat → Bool))) : EvalState :=
  steps.foldl (evalWhileBody n_envs (targetsFun n_eval_episodes n_envs))
    initialEvalState

/-- The `while` condition `(episode_counts < episode_count_targets).any()`. -/
def whileCond (n_envs : Nat) (targets : Nat → Nat) (st : EvalState) : Bool :=
  (List.range n_envs).any (fun i => st.episode_counts i < targets i)

/-- The bookkeeping invariant of the `evaluate_policy` loop: no environment
exceeds its target, and the number of recorded episode rewards (and lengths)
equals the total episode count. -/
def EvalInv (n_envs : Nat) (targets : Nat → Nat) (st : EvalState) : Prop :=
  (∀ i, st.episode_counts i ≤ targets i) ∧
  st.episode_rewards.length = ∑ i ∈ Finset.range n_envs, st.episode_counts i ∧
  st.episode_lengths.length = st.episode_rewards.length

/-! ## Helper lemmas -/

theorem getD_map_range {β : Type _} (f : Nat → β) {n j : Nat} (d : β)
    (hj : j < n) : ((List.range n).map f).getD j d = f j := by
  rw [List.getD_eq_getElem?_getD, List.getElem?_map, List.getElem?_range hj]
  rfl

/-! ## Claim C1: per-item index formula -/

/-- C1 is false as stated: with `num_envs=4, num_time=6, batch_time=2,
skew=[0,1,2,3]`, item `i=5` has `time_batch = (5 // 4) · 2 = 2` (not `0`),
so its flat indices are `[13, 17]`, not `[5, 9]`.  The general formula of
the claim, which the in-source test
`test_time_contiguous_batches_dataset` also asserts, yields
`[1 + 4·((2+0+1) % 6), 1 + 4·((2+1+1) % 6)] = [13, 17]` here. -/
theorem C1_example_counterexample :
    (TimeContiguousBatchesDataset.mk 4 6 2 [0, 1, 2, 3]).getItem 5 ≠ [5, 9] := by
  decide

/-- C1 (amended): for every dataset and batch id `i < (T//L)·E`, item `i` is
the list of flat grid indices `env + E·((time_batch + j + skew[env]) mod T)`
for `j = 0 … L-1` with `time_batch = (i // E) · L` and `env = i % E`; in
particular with `num_envs=4, num_time=6, batch_time=2, skew=[0,1,2,3]`,
item `i=5` equals `[13, 17]`. -/
theorem C1_item_formula (E T L : Nat) (skew : List Nat) (i : Nat)
    (hi : i < (T / L) * E) :
    (TimeContiguousBatchesDataset.mk E T L skew).getItem i =
      (List.range L).map
        (fun j => i % E + E * (((i / E) * L + j + skew.getD (i % E) 0) % T)) ∧
    (TimeContiguousBatchesDataset.mk 4 6 2 [0, 1, 2, 3]).getItem 5 = [13, 17] :=
  ⟨rfl, by decide⟩

/-- Witness for `C1_item_formula` at `E=4, T=6, L=2, skew=[0,1,2,3], i=5`. -/
theorem C1_item_formula_witness :
    5 < (6 / 2) * 4 ∧
    ((TimeContiguousBatchesDataset.mk 4 6 2 [0, 1, 2, 3]).getItem 5 =
      (List.range 2).map
        (fun j => 5 % 4 + 4 * (((5 / 4) * 2 + j + [0, 1, 2, 3].getD (5 % 4) 0) % 6)) ∧
     (TimeContiguousBatchesDataset.mk 4 6 2 [0, 1, 2, 3]).getItem 5 = [13, 17]) :=
  ⟨by decide, C1_item_formula 4 6 2 [0, 1, 2, 3] 5 (by decide)⟩

/-! ## Claim C6: vectorized vs. scalar lookup -/

/-- C6: for every batch-id set, the vectorized `get_batch_and_init_times`
returns the same `L × |batch_ids|` index matrix as looking every id up
individually with `getItem` and stacking the results column-wise. -/
theorem C6_vectorized_eq_scalar (d : TimeContiguousBatchesDataset)
    (batch_ids : List Nat) :
    (d.get_batch_and_init_times batch_ids).2 = d.stackedItems batch_ids := by
  unfold TimeContiguousBatchesDataset.get_batch_and_init_times
    TimeContiguousBatchesDataset.stackedItems
  refine List.map_congr_left (fun j hj => ?_)
  refine List.map_congr_left (fun i _ => ?_)
  rw [List.mem_range] at hj
  simp only [TimeContiguousBatchesDataset.getItem]
  rw [getD_map_range _ _ hj]

/-! ## Claim C5: first-row identity -/

/-- C5: for every batch-id set, row 0 of the collective index matrix of
`get_batch_and_init_times` equals `first_time · num_envs + first_env`,
column by column, computed from the paired start-`(time, env)` output of
the same call. -/
theorem C5_first_row (d : TimeContiguousBatchesDataset) (batch_ids : List Nat)
    (hbt : 0 < d.batch_time) :
    ((d.get_batch_and_init_times batch_ids).2).headD [] =
      List.zipWith (fun t e => t * d.num_envs + e)
        (d.get_batch_and_init_times batch_ids).1.1
        (d.get_batch_and_init_times batch_ids).1.2 := by
  obtain ⟨L, hL⟩ : ∃ L, d.batch_time = L + 1 :=
    ⟨d.batch_time - 1, (Nat.succ_pred_eq_of_pos hbt).symm⟩
  unfold TimeContiguousBatchesDataset.get_batch_and_init_times
  rw [List.zipWith_map_left, List.zipWith_map_right, List.zipWith_same, hL,
    List.range_succ_eq_map, List.map_cons, List.headD_cons]
  refine List.map_congr_left (fun i _ => ?_)
  ring

/-- Witness for `C5_first_row` at `E=4, T=6, L=2, skew=[0,1,2,3]`,
`batch_ids=[0,1,5]`. -/
theorem C5_first_row_witness :
    0 < (TimeContiguousBatchesDataset.mk 4 6 2 [0, 1, 2, 3]).batch_time ∧
    (((TimeContiguousBatchesDataset.mk 4 6 2 [0, 1, 2, 3]).get_batch_and_init_times
        [0, 1, 5]).2).headD [] =
      List.zipWith (fun t e => t * 4 + e)
        ((TimeContiguousBatchesDataset.mk 4 6 2 [0, 1, 2, 3]).get_batch_and_init_times
          [0, 1, 5]).1.1
        ((TimeContiguousBatchesDataset.mk 4 6 2 [0, 1, 2, 3]).get_batch_and_init_times
          [0, 1, 5]).1.2 :=
  ⟨by decide, C5_first_row (TimeContiguousBatchesDataset.mk 4 6 2 [0, 1, 2, 3])
    [0, 1, 5] (by decide)⟩

/-! ## Claims C7 and C3: truncation accounting and coverage -/

/-- Flat grid indices decompose uniquely: `e + E·t` with `e < E` determines
`e` and `t`. -/
theorem flat_index_inj {E a b c d : Nat} (ha : a < E) (hc : c < E)
    (h : a + E * b = c + E * d) : a = c ∧ b = d := by
  have hE : 0 < E := Nat.lt_of_le_of_lt (Nat.zero_le a) ha
  have hb : (a + E * b) / E = b := by
    rw [Nat.add_mul_div_left _ _ hE, Nat.div_eq_of_lt ha, Nat.zero_add]
  have hd : (a + E * b) / E = d := by
    rw [h, Nat.add_mul_div_left _ _ hE, Nat.div_eq_of_lt hc, Nat.zero_add]
  have hbd : b = d := by omega
  subst hbd
  exact ⟨by omega, rfl⟩

/-- Time `t` of environment `e < E` is sampled iff some time batch `m` and
window offset `j` reach it. -/
theorem sampledTime_iff (E T L : Nat) (skew : List Nat) (e t : Nat)
    (he : e < E) :
    (TimeContiguousBatchesDataset.mk E T L skew).sampledTime e t = true ↔
      ∃ m < T / L, ∃ j < L, (m * L + j + skew.getD e 0) % T = t := by
  have hE : 0 < E := Nat.lt_of_le_of_lt (Nat.zero_le e) he
  unfold TimeContiguousBatchesDataset.sampledTime
  rw [List.any_eq_true]
  constructor
  · rintro ⟨i, hi, hany⟩
    rw [List.mem_range] at hi
    rw [List.any_eq_true] at hany
    obtain ⟨x, hx, hxeq⟩ := hany
    rw [decide_eq_true_eq] at hxeq
    simp only [TimeContiguousBatchesDataset.getItem, List.mem_map] at hx
    obtain ⟨j, hj, hfx⟩ := hx
    rw [List.mem_range] at hj
    rw [hxeq] at hfx
    obtain ⟨hee, htt⟩ := flat_index_inj (Nat.mod_lt i hE) he hfx
    exact ⟨i / E, (Nat.div_lt_iff_lt_mul hE).mpr hi, j, hj, by rw [← hee]; exact htt⟩
  · rintro ⟨m, hm, j, hj, heq⟩
    have hq : (e + E * m) / E = m := by
      rw [Nat.add_mul_div_left _ _ hE, Nat.div_eq_of_lt he, Nat.zero_add]
    have hr : (e + E * m) % E = e := by
      rw [Nat.add_mul_mod_self_left, Nat.mod_eq_of_lt he]
    have hlt : e + E * m < T / L * E := by
      refine (Nat.div_lt_iff_lt_mul hE).mp ?_
      rw [hq]; exact hm
    refine ⟨e + E * m, List.mem_range.mpr hlt, ?_⟩
    rw [List.any_eq_true]
    refine ⟨e + E * t, ?_, by simp⟩
    simp only [TimeContiguousBatchesDataset.getItem, List.mem_map]
    refine ⟨j, List.mem_range.mpr hj, ?_⟩
    rw [hq, hr, heq]

/-- Exactly `T mod L` time steps of each environment are never sampled. -/
theorem excluded_card (E T L : Nat) (skew : List Nat) (hL : 0 < L) (e : Nat)
    (he : e < E) :
    ((Finset.range T).filter
      (fun t =>
        (TimeContiguousBatchesDataset.mk E T L skew).sampledTime e t = false)).card
      = T % L := by
  have hdml : (T / L) * L ≤ T := Nat.div_mul_le_self T L
  have himg : (Finset.range T).filter
      (fun t =>
        (TimeContiguousBatchesDataset.mk E T L skew).sampledTime e t = true) =
      (Finset.range ((T / L) * L)).image
        (fun k => (k + skew.getD e 0) % T) := by
    ext t
    simp only [Finset.mem_filter, Finset.mem_image, Finset.mem_range,
      sampledTime_iff E T L skew e t he]
    constructor
    · rintro ⟨ht, m, hm, j, hj, heq⟩
      refine ⟨m * L + j, ?_, heq⟩
      have hml : (m + 1) * L = m * L + L := by ring
      calc m * L + j < (m + 1) * L := by omega
        _ ≤ (T / L) * L := Nat.mul_le_mul_right L hm
    · rintro ⟨k, hk, heq⟩
      have hT : 0 < T := Nat.lt_of_lt_of_le (Nat.lt_of_le_of_lt (Nat.zero_le k) hk) hdml
      refine ⟨by rw [← heq]; exact Nat.mod_lt _ hT, k / L,
        (Nat.div_lt_iff_lt_mul hL).mpr hk, k % L, Nat.mod_lt _ hL, ?_⟩
      have hda := Nat.div_add_mod k L
      have : k / L * L + k % L = k := by
        rw [Nat.mul_comm (k / L) L]; exact hda
      rw [this, heq]
  have hinj : Set.InjOn (fun k => (k + skew.getD e 0) % T)
      ↑(Finset.range ((T / L) * L)) := by
    intro k1 hk1 k2 hk2 heq
    rw [Finset.coe_range, Set.mem_Iio] at hk1 hk2
    have hk1T : k1 < T := Nat.lt_of_lt_of_le hk1 hdml
    have hk2T : k2 < T := Nat.lt_of_lt_of_le hk2 hdml
    have hmod : k1 ≡ k2 [MOD T] := Nat.ModEq.add_right_cancel' (skew.getD e 0) heq
    rw [Nat.ModEq, Nat.mod_eq_of_lt hk1T, Nat.mod_eq_of_lt hk2T] at hmod
    exact hmod
  have hcards := Finset.filter_card_add_filter_neg_card_eq_card
    (s := Finset.range T)
    (fun t => (TimeContiguousBatchesDataset.mk E T L skew).sampledTime e t = true)
  have hneg : (Finset.range T).filter
      (fun t =>
        ¬ (TimeContiguousBatchesDataset.mk E T L skew).sampledTime e t = true) =
      (Finset.range T).filter
      (fun t =>
        (TimeContiguousBatchesDataset.mk E T L skew).sampledTime e t = false) := by
    apply Finset.filter_congr
    intro t _
    simp
  have hcard1 : ((Finset.range T).filter
      (fun t =>
        (TimeContiguousBatchesDataset.mk E T L skew).sampledTime e t = true)).card
      = (T / L) * L := by
    rw [himg, Finset.card_image_of_injOn hinj, Finset.card_range]
  rw [hneg, hcard1, Finset.card_range] at hcards
  have hda := Nat.div_add_mod T L
  have : L * (T / L) = (T / L) * L := Nat.mul_comm L (T / L)
  omega

/-- C7: for every `num_envs = E`, `num_time = T`, `batch_time = L > 0`, the
Time-Contiguous Batch Index has length `(T // L) · E`, and for every
environment exactly the `T mod L` remainder time steps are never sampled in
that pass; in particular with `num_time = 10, batch_time = 3` exactly one
time step per environment is excluded and the dataset length is `3 · E`. -/
theorem C7_truncation (E T L : Nat) (skew : List Nat) (hL : 0 < L) (e : Nat)
    (he : e < E) :
    (TimeContiguousBatchesDataset.mk E T L skew).len = (T / L) * E ∧
    ((Finset.range T).filter
      (fun t =>
        (TimeContiguousBatchesDataset.mk E T L skew).sampledTime e t = false)).card
      = T % L ∧
    (TimeContiguousBatchesDataset.mk E 10 3 skew).len = 3 * E ∧
    ((Finset.range 10).filter
      (fun t =>
        (TimeContiguousBatchesDataset.mk E 10 3 skew).sampledTime e t = false)).card
      = 1 :=
  ⟨rfl, excluded_card E T L skew hL e he,
    by show 10 / 3 * E = 3 * E; norm_num,
    excluded_card E 10 3 skew (by omega) e he⟩

/-- Witness for `C7_truncation` at `E=4, T=6, L=2, skew=[0,1,2,3], e=1`. -/
theorem C7_truncation_witness :
    0 < 2 ∧ 1 < 4 ∧
    ((TimeContiguousBatchesDataset.mk 4 6 2 [0, 1, 2, 3]).len = (6 / 2) * 4 ∧
     ((Finset.range 6).filter
       (fun t =>
         (TimeContiguousBatchesDataset.mk 4 6 2 [0, 1, 2, 3]).sampledTime 1 t
           = false)).card = 6 % 2 ∧
     (TimeContiguousBatchesDataset.mk 4 10 3 [0, 1, 2, 3]).len = 3 * 4 ∧
     ((Finset.range 10).filter
       (fun t =>
         (TimeContiguousBatchesDataset.mk 4 10 3 [0, 1, 2, 3]).sampledTime 1 t
           = false)).card = 1) :=
  ⟨by decide, by decide,
    C7_truncation 4 6 2 [0, 1, 2, 3] (by decide) 1 (by decide)⟩

/-- Shifting by `s` modulo `T` reaches every residue: for `t < T` there is a
`k < T` with `(k + s) % T = t`. -/
theorem exists_mod_shift (T s t : Nat) (ht : t < T) :
    ∃ k, k < T ∧ (k + s) % T = t := by
  have hT : 0 < T := Nat.lt_of_le_of_lt (Nat.zero_le t) ht
  refine ⟨(t + (T - s % T)) % T, Nat.mod_lt _ hT, ?_⟩
  rw [Nat.mod_add_mod]
  have hsd := Nat.div_add_mod s T
  have hone : T * (1 + s / T) = T + T * (s / T) := by ring
  have hrT : s % T < T := Nat.mod_lt s hT
  have h2 : t + (T - s % T) + s = t + T * (1 + s / T) := by omega
  rw [h2, Nat.add_mul_mod_self_left, Nat.mod_eq_of_lt ht]

/-- When `L` divides `T`, the whole dataset emits `E · T` flat indices. -/
theorem allIndices_length (E T L : Nat) (skew : List Nat) (hmod : T % L = 0) :
    (TimeContiguousBatchesDataset.mk E T L skew).allIndices.length = E * T := by
  have hdvd : L ∣ T := Nat.dvd_of_mod_eq_zero hmod
  unfold TimeContiguousBatchesDataset.allIndices
  rw [List.length_flatMap]
  have hconst :
      List.map (List.length ∘ (TimeContiguousBatchesDataset.mk E T L skew).getItem)
        (List.range (TimeContiguousBatchesDataset.mk E T L skew).len) =
      List.map (fun _ => L)
        (List.range (TimeContiguousBatchesDataset.mk E T L skew).len) := by
    refine List.map_congr_left (fun i _ => ?_)
    simp [TimeContiguousBatchesDataset.getItem]
  rw [hconst, List.map_const', List.sum_replicate, smul_eq_mul, List.length_range]
  show (T / L) * E * L = E * T
  calc (T / L) * E * L = E * ((T / L) * L) := by ring
    _ = E * T := by rw [Nat.div_mul_cancel hdvd]

/-- When `L` divides `T`, every flat grid index below `E · T` is emitted. -/
theorem mem_allIndices (E T L : Nat) (skew : List Nat) (hL : 0 < L)
    (hmod : T % L = 0) (x : Nat) (hx : x < E * T) :
    x ∈ (TimeContiguousBatchesDataset.mk E T L skew).allIndices := by
  have hdvd : L ∣ T := Nat.dvd_of_mod_eq_zero hmod
  have hE : 0 < E := by
    rcases Nat.eq_zero_or_pos E with h | h
    · subst h; simp at hx
    · exact h
  have he : x % E < E := Nat.mod_lt x hE
  have ht : x / E < T :=
    (Nat.div_lt_iff_lt_mul hE).mpr (by rw [Nat.mul_comm]; exact hx)
  obtain ⟨k, hkT, hks⟩ := exists_mod_shift T (skew.getD (x % E) 0) (x / E) ht
  have hkTL : k < (T / L) * L := by rw [Nat.div_mul_cancel hdvd]; exact hkT
  have hm : k / L < T / L := (Nat.div_lt_iff_lt_mul hL).mpr hkTL
  have hj : k % L < L := Nat.mod_lt _ hL
  have hq : (x % E + E * (k / L)) / E = k / L := by
    rw [Nat.add_mul_div_left _ _ hE, Nat.div_eq_of_lt he, Nat.zero_add]
  have hr : (x % E + E * (k / L)) % E = x % E := by
    rw [Nat.add_mul_mod_self_left, Nat.mod_eq_of_lt he]
  have hilen : x % E + E * (k / L) < T / L * E := by
    refine (Nat.div_lt_iff_lt_mul hE).mp ?_
    rw [hq]; exact hm
  unfold TimeContiguousBatchesDataset.allIndices
  rw [List.mem_flatMap]
  refine ⟨x % E + E * (k / L), List.mem_range.mpr hilen, ?_⟩
  simp only [TimeContiguousBatchesDataset.getItem, List.mem_map]
  refine ⟨k % L, List.mem_range.mpr hj, ?_⟩
  rw [hq, hr]
  have hkk : k / L * L + k % L = k := by
    have := Nat.div_add_mod k L
    rw [Nat.mul_comm (k / L) L]; exact this
  rw [hkk, hks]
  have := Nat.div_add_mod x E
  omega

/-- C3: for every `num_envs`, `num_time`, `batch_time > 0` with
`num_time % batch_time == 0` and every skew vector with entries in
`[0, num_time)`, the multiset of flat grid indices over all batch ids is
exactly `{0, …, num_envs·num_time − 1}`, each element exactly once. -/
theorem C3_coverage (E T L : Nat) (skew : List Nat) (hL : 0 < L)
    (hmod : T % L = 0) (hskew : ∀ s ∈ skew, s < T) :
    ((TimeContiguousBatchesDataset.mk E T L skew).allIndices : Multiset Nat) =
      Multiset.range (E * T) := by
  have hlen := allIndices_length E T L skew hmod
  have hle : Multiset.range (E * T) ≤
      ((TimeContiguousBatchesDataset.mk E T L skew).allIndices : Multiset Nat) := by
    rw [Multiset.le_iff_count]
    intro a
    by_cases ha : a < E * T
    · rw [Multiset.count_eq_one_of_mem (Multiset.nodup_range _)
        (Multiset.mem_range.mpr ha)]
      exact Multiset.one_le_count_iff_mem.mpr
        (Multiset.mem_coe.mpr (mem_allIndices E T L skew hL hmod a ha))
    · rw [Multiset.count_eq_zero_of_not_mem
        (fun hmem => ha (Multiset.mem_range.mp hmem))]
      exact Nat.zero_le _
  have hcard : Multiset.card
      ((TimeContiguousBatchesDataset.mk E T L skew).allIndices : Multiset Nat) ≤
      Multiset.card (Multiset.range (E * T)) := by
    rw [Multiset.coe_card, hlen, Multiset.card_range]
  exact (Multiset.eq_of_le_of_card_le hle hcard).symm

/-- Witness for `C3_coverage` at `E=4, T=6, L=2, skew=[0,1,2,3]`. -/
theorem C3_coverage_witness :
    0 < 2 ∧ (6 : Nat) % 2 = 0 ∧ (∀ s ∈ [0, 1, 2, 3], s < 6) ∧
    ((TimeContiguousBatchesDataset.mk 4 6 2 [0, 1, 2, 3]).allIndices :
      Multiset Nat) = Multiset.range (4 * 6) :=
  ⟨by decide, by decide, by decide,
    C3_coverage 4 6 2 [0, 1, 2, 3] (by decide) (by decide) (by decide)⟩

/-! ## Sequence replayer lemmas -/

theorem getD_map_lt {α β : Type _} (f : α → β) (l : List α) (n : Nat)
    (d : β) (e : α) (h : n < l.length) :
    (l.map f).getD n d = f (l.getD n e) := by
  rw [List.getD_eq_getElem (l.map f) d (by simpa using h), List.getElem_map,
    List.getD_eq_getElem l e h]

theorem getD_zipWith_lt {α β γ : Type _} (f : α → β → γ) (l1 : List α)
    (l2 : List β) (n : Nat) (d : γ) (d1 : α) (d2 : β)
    (h1 : n < l1.length) (h2 : n < l2.length) :
    (List.zipWith f l1 l2).getD n d = f (l1.getD n d1) (l2.getD n d2) := by
  have hlen : n < (List.zipWith f l1 l2).length := by
    rw [List.length_zipWith]; omega
  rw [List.getD_eq_getElem _ _ hlen, List.getElem_zipWith,
    List.getD_eq_getElem _ _ h1, List.getD_eq_getElem _ _ h2]

/-- The mid-sequence check `th.any(episode_starts[1:])` on the time-major
reshape holds iff some flag at a local time index other than 0 is true. -/
theorem midseq_check_iff (eps : List Bool) (batch_sz seq_len : Nat) :
    ((swapaxes01 (view2 eps batch_sz seq_len) seq_len).drop 1).any
        (fun row => row.any id) = true ↔
      ∃ t, 0 < t ∧ t < seq_len ∧ ∃ b, b < batch_sz ∧
        eps.getD (b * seq_len + t) false = true := by
  cases seq_len with
  | zero => simp [swapaxes01]
  | succ n =>
    unfold swapaxes01
    rw [List.range_succ_eq_map, List.map_cons, List.drop_one, List.tail_cons,
      List.map_map, List.any_eq_true]
    constructor
    · rintro ⟨row, hrow, hany⟩
      rw [List.mem_map] at hrow
      obtain ⟨t, ht, hrowE⟩ := hrow
      rw [List.mem_range] at ht
      rw [List.any_eq_true] at hany
      obtain ⟨x, hx, hxT⟩ := hany
      rw [← hrowE] at hx
      simp only [Function.comp_apply, List.mem_map] at hx
      obtain ⟨r, hr, hxr⟩ := hx
      unfold view2 at hr
      rw [List.mem_map] at hr
      obtain ⟨b, hb, hrE⟩ := hr
      rw [List.mem_range] at hb
      refine ⟨t + 1, Nat.succ_pos t, Nat.succ_lt_succ ht, b, hb, ?_⟩
      rw [id_eq] at hxT
      rw [← hxr, ← hrE, getD_map_range _ _ (Nat.succ_lt_succ ht)] at hxT
      exact hxT
    · rintro ⟨t, ht0, htn, b, hb, hflag⟩
      obtain ⟨t1, rfl⟩ : ∃ t1, t = t1 + 1 := ⟨t - 1, by omega⟩
      have ht1 : t1 < n := by omega
      refine ⟨(List.map (fun row => row.getD (Nat.succ t1) default)
          (view2 eps batch_sz (n + 1))),
        List.mem_map_of_mem _ (List.mem_range.mpr ht1), ?_⟩
      rw [List.any_eq_true]
      refine ⟨true, ?_, rfl⟩
      rw [List.mem_map]
      refine ⟨(List.range (n + 1)).map
        (fun c => eps.getD (b * (n + 1) + c) false), ?_, ?_⟩
      · unfold view2
        exact List.mem_map_of_mem _ (List.mem_range.mpr hb)
      · rw [getD_map_range _ _ (Nat.succ_lt_succ ht1)]
        exact hflag

/-- Length of the mask `~episode_starts[0]`. -/
theorem first_mask_length (eps : List Bool) (batch_sz seq_len : Nat)
    (hseq : 0 < seq_len) :
    (((swapaxes01 (view2 eps batch_sz seq_len) seq_len).headD []).map
      (fun x => !x)).length = batch_sz := by
  obtain ⟨n, rfl⟩ : ∃ n, seq_len = n + 1 := ⟨seq_len - 1, by omega⟩
  unfold swapaxes01 view2
  rw [List.range_succ_eq_map, List.map_cons, List.headD_cons]
  simp [List.length_map, List.length_range]

/-- Entry `b` of the mask `~episode_starts[0]` is the negation of the flat
flag at index `b · seq_len`. -/
theorem first_mask_getD (eps : List Bool) (batch_sz seq_len : Nat)
    (hseq : 0 < seq_len) (b : Nat) (hb : b < batch_sz) :
    (((swapaxes01 (view2 eps batch_sz seq_len) seq_len).headD []).map
        (fun x => !x)).getD b false =
      !(eps.getD (b * seq_len) false) := by
  obtain ⟨n, rfl⟩ : ∃ n, seq_len = n + 1 := ⟨seq_len - 1, by omega⟩
  unfold swapaxes01 view2
  rw [List.range_succ_eq_map, List.map_cons, List.headD_cons, List.map_map,
    List.map_map]
  rw [getD_map_range _ _ hb]
  simp only [Function.comp_apply]
  rw [List.map_cons, List.getD_cons_zero]
  rfl

/-- Under the nominal shape conditions, `prepareInitState` reduces past all
its preliminary checks to the mid-sequence test and the per-leaf shape
asserts. -/
theorem prepareInitState_reduce (rnn : RNNBase) (inputs : List Int)
    (leaf : StateLeaf) (rest : List StateLeaf) (episode_starts : List Bool)
    (batch_sz seq_len : Nat)
    (hlayers : leaf.length = rnn.num_layers)
    (hbatch : (leaf.headD []).length = batch_sz)
    (hbs : 0 < batch_sz)
    (hinp : inputs.length = batch_sz * seq_len)
    (heps : episode_starts.length = batch_sz * seq_len) :
    prepareInitState rnn inputs (leaf :: rest) episode_starts =
      (if ((swapaxes01 (view2 episode_starts batch_sz seq_len) seq_len).drop 1).any
          (fun row => row.any id) = true then
        .error .unsupportedMidSequenceReset
      else if seq_len = 0 then .error .indexError
      else if (leaf :: rest).all
          (fun lf => shapeCheck lf rnn.num_layers batch_sz rnn.hidden_size) then
        .ok ⟨batch_sz, seq_len,
          swapaxes01 (view2 inputs batch_sz seq_len) seq_len,
          (leaf :: rest).map (resetStateComponent
            (((swapaxes01 (view2 episode_starts batch_sz seq_len) seq_len).headD
              []).map (fun b => !b)))⟩
      else .error .assertionFailed) := by
  simp only [prepareInitState]
  rw [hbatch, hlayers, hinp, heps, Nat.mul_div_cancel_left seq_len hbs]
  rw [if_neg (fun h => h rfl), if_neg (by omega : ¬ batch_sz = 0),
    if_neg (fun h => h rfl), if_neg (fun h => h rfl)]

/-! ## Claim C4: exact hidden-state reset -/

/-- Entrywise effect of `_reset_state_component`: entry `(lay, b, h)` is the
original entry multiplied by the broadcast mask value for batch row `b`. -/
theorem resetStateComponent_entry (mask : List Bool) (lf : StateLeaf)
    (lay b h : Nat) (hlay : lay < lf.length) (hb : b < mask.length)
    (hb2 : b < (lf.getD lay []).length)
    (hh : h < ((lf.getD lay []).getD b []).length) :
    (((resetStateComponent mask lf).getD lay []).getD b []).getD h 0 =
      ((lf.getD lay []).getD b []).getD h 0 *
        (if mask.getD b false then 1 else 0) := by
  unfold resetStateComponent
  rw [getD_map_lt _ lf lay [] [] hlay]
  rw [getD_zipWith_lt _ mask (lf.getD lay []) b [] false [] hb hb2]
  rw [getD_map_lt _ _ h 0 0 hh]

/-- C4: when `_process_sequence` processes a valid window (episode-start
flags possibly true only at local time index 0) of nominal shape, it
succeeds, the recurrent network is invoked on the reset state
`(leaf :: rest).map (resetStateComponent (firstStepMask …))`, and that state
has exactly the entries of environments with a true time-0 flag set to zero
while every other entry equals its input value. -/
theorem C4_reset_exactness (rnn : RNNBase)
    (apply : List (List Int) → List StateLeaf → List (List Int) × List StateLeaf)
    (inputs : List Int) (leaf : StateLeaf) (rest : List StateLeaf)
    (episode_starts : List Bool) (batch_sz seq_len : Nat)
    (hall : ∀ lf ∈ leaf :: rest,
      HasShape3 lf rnn.num_layers batch_sz rnn.hidden_size)
    (hbatch : (leaf.headD []).length = batch_sz)
    (hbs : 0 < batch_sz) (hseq : 0 < seq_len)
    (hinp : inputs.length = batch_sz * seq_len)
    (heps : episode_starts.length = batch_sz * seq_len)
    (hvalid : ∀ t, 0 < t → t < seq_len → ∀ b, b < batch_sz →
      episode_starts.getD (b * seq_len + t) false = false) :
    prepareInitState rnn inputs (leaf :: rest) episode_starts =
      .ok ⟨batch_sz, seq_len, swapaxes01 (view2 inputs batch_sz seq_len) seq_len,
        (leaf :: rest).map
          (resetStateComponent (firstStepMask episode_starts batch_sz seq_len))⟩ ∧
    processSequence rnn apply inputs (leaf :: rest) episode_starts =
      .ok ((swapaxes01
          (apply (swapaxes01 (view2 inputs batch_sz seq_len) seq_len)
            ((leaf :: rest).map (resetStateComponent
              (firstStepMask episode_starts batch_sz seq_len)))).1
          batch_sz).flatten,
        (apply (swapaxes01 (view2 inputs batch_sz seq_len) seq_len)
          ((leaf :: rest).map (resetStateComponent
            (firstStepMask episode_starts batch_sz seq_len)))).2) ∧
    (∀ li, li < (leaf :: rest).length → ∀ lay, lay < rnn.num_layers →
      ∀ b, b < batch_sz → ∀ h, h < rnn.hidden_size →
        stateEntry ((leaf :: rest).map (resetStateComponent
            (firstStepMask episode_starts batch_sz seq_len))) li lay b h =
          if episode_starts.getD (b * seq_len) false = true then 0
          else stateEntry (leaf :: rest) li lay b h) := by
  have hlayers : leaf.length = rnn.num_layers :=
    (hall leaf (List.mem_cons_self _ _)).1
  have hred := prepareInitState_reduce rnn inputs leaf rest episode_starts
    batch_sz seq_len hlayers hbatch hbs hinp heps
  have hchk : ¬ (((swapaxes01 (view2 episode_starts batch_sz seq_len)
      seq_len).drop 1).any (fun row => row.any id) = true) := by
    rw [midseq_check_iff]
    rintro ⟨t, ht0, htn, b, hb, hflag⟩
    rw [hvalid t ht0 htn b hb] at hflag
    cases hflag
  have hsz : ¬ (seq_len = 0) := by omega
  have hshapes : (leaf :: rest).all
      (fun lf => shapeCheck lf rnn.num_layers batch_sz rnn.hidden_size) = true := by
    rw [List.all_eq_true]
    intro lf hlf
    exact decide_eq_true (hall lf hlf)
  refine ⟨?_, ?_, ?_⟩
  · rw [hred, if_neg hchk, if_neg hsz, if_pos hshapes]
    rfl
  · simp only [processSequence]
    rw [hred, if_neg hchk, if_neg hsz, if_pos hshapes]
    rfl
  · intro li hli lay hlay b hb h hh
    have hlf : (leaf :: rest).getD li [] ∈ (leaf :: rest) := by
      rw [List.getD_eq_getElem (leaf :: rest) [] hli]
      exact List.getElem_mem hli
    have hsh := hall _ hlf
    have hlay2 : lay < ((leaf :: rest).getD li []).length := by
      rw [hsh.1]; exact hlay
    have hrowmem : ((leaf :: rest).getD li []).getD lay [] ∈
        (leaf :: rest).getD li [] := by
      rw [List.getD_eq_getElem ((leaf :: rest).getD li []) [] hlay2]
      exact List.getElem_mem hlay2
    have hrow := hsh.2 _ hrowmem
    have hb2 : b < (((leaf :: rest).getD li []).getD lay []).length := by
      rw [hrow.1]; exact hb
    have hcellmem : (((leaf :: rest).getD li []).getD lay []).getD b [] ∈
        ((leaf :: rest).getD li []).getD lay [] := by
      rw [List.getD_eq_getElem (((leaf :: rest).getD li []).getD lay []) [] hb2]
      exact List.getElem_mem hb2
    have hcell := hrow.2 _ hcellmem
    have hmlen : (firstStepMask episode_starts batch_sz seq_len).length
        = batch_sz := first_mask_length episode_starts batch_sz seq_len hseq
    unfold stateEntry
    rw [getD_map_lt (resetStateComponent
      (firstStepMask episode_starts batch_sz seq_len)) (leaf :: rest) li [] [] hli]
    rw [resetStateComponent_entry _ _ lay b h
      (by rw [hsh.1]; exact hlay) (by rw [hmlen]; exact hb)
      (by rw [hrow.1]; exact hb) (by rw [hcell]; exact hh)]
    rw [show (firstStepMask episode_starts batch_sz seq_len).getD b false =
      !(episode_starts.getD (b * seq_len) false) from
      first_mask_getD episode_starts batch_sz seq_len hseq b hb]
    cases hflag : episode_starts.getD (b * seq_len) false
    · simp
    · simp

/-- Witness for `C4_reset_exactness`: one leaf of shape `(1, 2, 1)`,
`batch_sz = 2`, `seq_len = 1`, flags `[true, false]`. -/
theorem C4_reset_exactness_witness :
    HasShape3 ([[[5], [7]]] : StateLeaf) 1 2 1 ∧
    ((([[[5], [7]]] : StateLeaf).headD []).length = 2) ∧ 0 < 2 ∧ 0 < 1 ∧
    (([3, 4] : List Int).length = 2 * 1) ∧
    (([true, false] : List Bool).length = 2 * 1) ∧
    (prepareInitState ⟨1, 1⟩ [3, 4] ([[[[5], [7]]]] : List StateLeaf) [true, false] =
      .ok ⟨2, 1, swapaxes01 (view2 [3, 4] 2 1) 1,
        ([[[[5], [7]]]] : List StateLeaf).map
          (resetStateComponent (firstStepMask [true, false] 2 1))⟩ ∧
    processSequence ⟨1, 1⟩ (fun a b => (a, b)) [3, 4]
      ([[[[5], [7]]]] : List StateLeaf) [true, false] =
      .ok ((swapaxes01
          ((fun (a : List (List Int)) (b : List StateLeaf) => (a, b))
            (swapaxes01 (view2 [3, 4] 2 1) 1)
            (([[[[5], [7]]]] : List StateLeaf).map (resetStateComponent
              (firstStepMask [true, false] 2 1)))).1
          2).flatten,
        ((fun (a : List (List Int)) (b : List StateLeaf) => (a, b))
          (swapaxes01 (view2 [3, 4] 2 1) 1)
          (([[[[5], [7]]]] : List StateLeaf).map (resetStateComponent
            (firstStepMask [true, false] 2 1)))).2) ∧
    (∀ li, li < ([[[[5], [7]]]] : List StateLeaf).length → ∀ lay, lay < 1 →
      ∀ b, b < 2 → ∀ h, h < 1 →
        stateEntry (([[[[5], [7]]]] : List StateLeaf).map (resetStateComponent
            (firstStepMask [true, false] 2 1))) li lay b h =
          if ([true, false] : List Bool).getD (b * 1) false = true then 0
          else stateEntry ([[[[5], [7]]]] : List StateLeaf) li lay b h)) :=
  ⟨by decide, by decide, by decide, by decide, by decide, by decide,
    C4_reset_exactness ⟨1, 1⟩ (fun a b => (a, b)) [3, 4] [[[5], [7]]] []
      [true, false] 2 1
      (by intro lf hlf; rw [List.mem_singleton] at hlf; subst hlf; decide)
      (by decide) (by decide) (by decide) (by decide) (by decide)
      (by intro t ht0 ht1 b hb; omega)⟩

/-! ## Claim C9: internal shape safety of `_process_sequence` -/

/-- C9 fails as stated at a degenerate but precondition-satisfying input:
with a single leaf of shape `(1, 0, 4)` the first leaf yields
`batch_sz = 0`, and empty inputs have flat length `0`, a multiple of `0`;
there Python computes `seq_len = inputs.shape[0] // batch_sz = 0 // 0`,
which raises `ZeroDivisionError`, so the batch-to-sequence reshape with
`seq_len = inputs.shape[0] // batch_sz` is not well-defined. -/
theorem C9_counterexample :
    HasShape3 ([([] : List (List Int))] : StateLeaf) 1 0 4 ∧
    (([([] : List (List Int))] : StateLeaf).headD []).length = 0 ∧
    (0 : Nat) % 0 = 0 ∧
    processSequence ⟨1, 4⟩ (fun a b => (a, b)) []
      ([[([] : List (List Int))]] : List StateLeaf) [] =
      .error .divisionByZero := by
  refine ⟨by decide, by decide, by decide, ?_⟩
  rfl

/-- C9 (amended): additionally assuming `batch_sz ≥ 1`, under the
precondition that every leaf of the initial state has shape
`(rnn.num_layers, batch_sz, rnn.hidden_size)` — with `batch_sz` read from
the first leaf — and that the flat input length is a multiple of
`batch_sz`, no run of `_process_sequence` fails an internal shape assertion
or divides by zero, and the batch-to-sequence and sequence-to-batch
reshapes are exact with `seq_len = inputs.length / batch_sz`. -/
theorem C9_shape_safety (rnn : RNNBase)
    (apply : List (List Int) → List StateLeaf → List (List Int) × List StateLeaf)
    (inputs : List Int) (leaf : StateLeaf) (rest : List StateLeaf)
    (episode_starts : List Bool) (batch_sz : Nat)
    (hall : ∀ lf ∈ leaf :: rest,
      HasShape3 lf rnn.num_layers batch_sz rnn.hidden_size)
    (hbatch : (leaf.headD []).length = batch_sz)
    (hbs : 0 < batch_sz)
    (hdvd : batch_sz ∣ inputs.length) :
    processSequence rnn apply inputs (leaf :: rest) episode_starts ≠
      .error .assertionFailed ∧
    processSequence rnn apply inputs (leaf :: rest) episode_starts ≠
      .error .divisionByZero ∧
    batch_sz * (inputs.length / batch_sz) = inputs.length := by
  have hlayers : leaf.length = rnn.num_layers :=
    (hall leaf (List.mem_cons_self _ _)).1
  have hexact : batch_sz * (inputs.length / batch_sz) = inputs.length :=
    Nat.mul_div_cancel' hdvd
  refine ⟨?_, ?_, hexact⟩ <;>
  · simp only [processSequence, prepareInitState]
    rw [hbatch, hlayers]
    rw [if_neg (fun h => h rfl), if_neg (show ¬ batch_sz = 0 by omega),
      if_neg (fun hne => hne hexact.symm)]
    split_ifs with h1 h2 h3 h4
    · simp
    · simp
    · simp
    · simp
    · exact absurd (List.all_eq_true.mpr
        (fun lf hlf => decide_eq_true (hall lf hlf))) h4

/-- Witness for `C9_shape_safety`: one leaf of shape `(1, 1, 2)`,
`batch_sz = 1`, inputs of length 1. -/
theorem C9_shape_safety_witness :
    HasShape3 ([[[1, 2]]] : StateLeaf) 1 1 2 ∧
    (([[[1, 2]]] : StateLeaf).headD []).length = 1 ∧
    0 < 1 ∧ (1 ∣ ([5] : List Int).length) ∧
    (processSequence ⟨1, 2⟩ (fun a b => (a, b)) [5]
        ([[[[1, 2]]]] : List StateLeaf) [true] ≠
      .error .assertionFailed ∧
    processSequence ⟨1, 2⟩ (fun a b => (a, b)) [5]
        ([[[[1, 2]]]] : List StateLeaf) [true] ≠
      .error .divisionByZero ∧
    1 * (([5] : List Int).length / 1) = ([5] : List Int).length) :=
  ⟨by decide, by decide, by decide, by decide,
    C9_shape_safety ⟨1, 2⟩ (fun a b => (a, b)) [5] [[[1, 2]]] [] [true] 1
      (by intro lf hlf; rw [List.mem_singleton] at hlf; subst hlf; decide)
      (by decide) (by decide) (by decide)⟩

/-! ## Claim C2: mid-sequence reset detection -/

/-- C2: for a window of nominal shape, if any episode-start flag of the
time-major reshape is true at a local time index other than 0,
`_process_sequence` returns the mid-sequence-reset error — for every
forward-pass function `apply`, i.e. before the recurrent forward pass could
run; if all interior flags are false, that error is never returned. -/
theorem C2_mid_sequence_reset (rnn : RNNBase)
    (apply : List (List Int) → List StateLeaf → List (List Int) × List StateLeaf)
    (inputs : List Int) (leaf : StateLeaf) (rest : List StateLeaf)
    (episode_starts : List Bool) (batch_sz seq_len : Nat)
    (hlayers : leaf.length = rnn.num_layers)
    (hbatch : (leaf.headD []).length = batch_sz)
    (hbs : 0 < batch_sz)
    (hinp : inputs.length = batch_sz * seq_len)
    (heps : episode_starts.length = batch_sz * seq_len) :
    ((∃ t, 0 < t ∧ t < seq_len ∧ ∃ b, b < batch_sz ∧
        episode_starts.getD (b * seq_len + t) false = true) →
      processSequence rnn apply inputs (leaf :: rest) episode_starts =
        .error .unsupportedMidSequenceReset) ∧
    ((∀ t, 0 < t → t < seq_len → ∀ b, b < batch_sz →
        episode_starts.getD (b * seq_len + t) false = false) →
      processSequence rnn apply inputs (leaf :: rest) episode_starts ≠
        .error .unsupportedMidSequenceReset) := by
  have hred := prepareInitState_reduce rnn inputs leaf rest episode_starts
    batch_sz seq_len hlayers hbatch hbs hinp heps
  constructor
  · intro hmid
    have hchk : ((swapaxes01 (view2 episode_starts batch_sz seq_len)
        seq_len).drop 1).any (fun row => row.any id) = true :=
      (midseq_check_iff episode_starts batch_sz seq_len).mpr hmid
    simp only [processSequence]
    rw [hred, if_pos hchk]
  · intro hno
    have hchk : ¬ (((swapaxes01 (view2 episode_starts batch_sz seq_len)
        seq_len).drop 1).any (fun row => row.any id) = true) := by
      rw [midseq_check_iff]
      rintro ⟨t, ht0, htn, b, hb, hflag⟩
      rw [hno t ht0 htn b hb] at hflag
      cases hflag
    simp only [processSequence]
    rw [hred, if_neg hchk]
    split_ifs <;> simp

/-- Witness for `C2_mid_sequence_reset`: one leaf of shape `(1,1,1)`,
`batch_sz = 1`, `seq_len = 2`, a true flag at local time index 1. -/
theorem C2_mid_sequence_reset_witness :
    ([[[0]]] : StateLeaf).length = 1 ∧
    (([[[0]]] : StateLeaf).headD []).length = 1 ∧
    0 < 1 ∧ ([0, 0] : List Int).length = 1 * 2 ∧
    ([false, true] : List Bool).length = 1 * 2 ∧
    (((∃ t, 0 < t ∧ t < 2 ∧ ∃ b, b < 1 ∧
        ([false, true] : List Bool).getD (b * 2 + t) false = true) →
      processSequence ⟨1, 1⟩ (fun a b => (a, b)) [0, 0]
          ([[[[0]]]] : List StateLeaf) [false, true] =
        .error .unsupportedMidSequenceReset) ∧
    ((∀ t, 0 < t → t < 2 → ∀ b, b < 1 →
        ([false, true] : List Bool).getD (b * 2 + t) false = false) →
      processSequence ⟨1, 1⟩ (fun a b => (a, b)) [0, 0]
          ([[[[0]]]] : List StateLeaf) [false, true] ≠
        .error .unsupportedMidSequenceReset)) :=
  ⟨rfl, rfl, by decide, rfl, rfl,
    C2_mid_sequence_reset ⟨1, 1⟩ (fun a b => (a, b)) [0, 0] [[[0]]] []
      [false, true] 1 2 rfl rfl (by decide) rfl rfl⟩

/-! ## Claim C8: even division of evaluation episodes -/

/-- The per-environment targets `(m + i) / n` for `i < n` sum to `m`. -/
theorem sum_div_targets (m n : Nat) (hn : 0 < n) :
    ∑ i ∈ Finset.range n, (m + i) / n = m := by
  have hmod : m % n < n := Nat.mod_lt m hn
  have hsplit : ∀ i, (m + i) / n = m / n + (m % n + i) / n := by
    intro i
    conv_lhs => rw [← Nat.div_add_mod m n]
    rw [Nat.add_assoc, Nat.mul_add_div hn]
  have hind : ∀ i, i < n → (m % n + i) / n = if n ≤ m % n + i then 1 else 0 := by
    intro i hi
    by_cases hc : n ≤ m % n + i
    · rw [if_pos hc, Nat.div_eq_sub_div hn hc,
        Nat.div_eq_of_lt (by omega), Nat.zero_add]
    · rw [if_neg hc, Nat.div_eq_of_lt (by omega)]
  calc ∑ i ∈ Finset.range n, (m + i) / n
      = ∑ i ∈ Finset.range n, (m / n + (m % n + i) / n) :=
        Finset.sum_congr rfl (fun i _ => hsplit i)
    _ = n * (m / n) + ∑ i ∈ Finset.range n, (m % n + i) / n := by
        rw [Finset.sum_add_distrib, Finset.sum_const, Finset.card_range,
          smul_eq_mul]
    _ = n * (m / n) + ∑ i ∈ Finset.range n, (if n ≤ m % n + i then 1 else 0) := by
        congr 1
        exact Finset.sum_congr rfl (fun i hi => hind i (Finset.mem_range.mp hi))
    _ = n * (m / n) + ((Finset.range n).filter (fun i => n ≤ m % n + i)).card := by
        rw [Finset.card_filter]
    _ = n * (m / n) + m % n := by
        congr 1
        have hico : (Finset.range n).filter (fun i => n ≤ m % n + i) =
            Finset.Ico (n - m % n) n := by
          ext i
          simp only [Finset.mem_filter, Finset.mem_range, Finset.mem_Ico]
          omega
        rw [hico, Nat.card_Ico]
        omega
    _ = m := Nat.div_add_mod m n

/-- C8: for every `n_eval_episodes ≥ 0` and `n_envs ≥ 1`, the targets
`(n_eval_episodes + i) // n_envs` computed by `evaluate_policy` sum to
exactly `n_eval_episodes` and differ pairwise by at most 1. -/
theorem C8_even_division (n_eval_episodes n_envs : Nat) (hn : 1 ≤ n_envs) :
    (episode_count_targets n_eval_episodes n_envs).sum = n_eval_episodes ∧
    ∀ x ∈ episode_count_targets n_eval_episodes n_envs,
      ∀ y ∈ episode_count_targets n_eval_episodes n_envs, x ≤ y + 1 := by
  constructor
  · have hfin : (episode_count_targets n_eval_episodes n_envs).sum =
        ∑ i ∈ Finset.range n_envs, (n_eval_episodes + i) / n_envs := rfl
    rw [hfin]
    exact sum_div_targets n_eval_episodes n_envs hn
  · intro x hx y hy
    rw [episode_count_targets, List.mem_map] at hx hy
    obtain ⟨i, hi, rfl⟩ := hx
    obtain ⟨j, hj, rfl⟩ := hy
    rw [List.mem_range] at hi hj
    unfold targetsFun
    have h1 : n_eval_episodes + i ≤ n_eval_episodes + j + n_envs := by omega
    calc (n_eval_episodes + i) / n_envs
        ≤ (n_eval_episodes + j + n_envs) / n_envs := Nat.div_le_div_right h1
      _ = (n_eval_episodes + j) / n_envs + 1 := Nat.add_div_right _ hn

/-- Witness for `C8_even_division` at `n_eval_episodes = 10, n_envs = 3`. -/
theorem C8_even_division_witness :
    1 ≤ 3 ∧
    ((episode_count_targets 10 3).sum = 10 ∧
     ∀ x ∈ episode_count_targets 10 3, ∀ y ∈ episode_count_targets 10 3,
       x ≤ y + 1) :=
  ⟨by decide, C8_even_division 10 3 (by decide)⟩

/-! ## Claim C10: exact episode accounting in `evaluate_policy` -/

/-- One pass of the per-environment loop body preserves the bookkeeping
invariant. -/
theorem stepEnvBody_inv (n_envs : Nat) (targets : Nat → Nat)
    (dones : Nat → Bool) (st : EvalState) (i : Nat) (hi : i < n_envs)
    (hinv : EvalInv n_envs targets st) :
    EvalInv n_envs targets (stepEnvBody targets dones st i) := by
  obtain ⟨hle, hlen, hll⟩ := hinv
  unfold stepEnvBody EvalInv
  by_cases hc : st.episode_counts i < targets i
  · rw [if_pos hc]
    by_cases hd : dones i
    · rw [if_pos hd]
      refine ⟨?_, ?_, ?_⟩
      · intro j
        dsimp only
        by_cases hij : j = i
        · subst hij
          rw [Function.update_same]
          omega
        · rw [Function.update_noteq hij]
          exact hle j
      · dsimp only
        rw [List.length_append, List.length_singleton, hlen,
          Finset.sum_update_of_mem (Finset.mem_range.mpr hi)]
        have hdiff := Finset.sum_eq_sum_diff_singleton_add
          (Finset.mem_range.mpr hi) st.episode_counts
        omega
      · dsimp only
        rw [List.length_append, List.length_append, List.length_singleton,
          List.length_singleton, hll]
    · rw [if_neg hd]
      exact ⟨hle, hlen, hll⟩
  · rw [if_neg hc]
    exact ⟨hle, hlen, hll⟩

/-- Folding the per-environment loop over any list of indices below `n_envs`
preserves the invariant. -/
theorem foldl_stepEnvBody_inv (n_envs : Nat) (targets : Nat → Nat)
    (dones : Nat → Bool) (l : List Nat) (hl : ∀ i ∈ l, i < n_envs)
    (st : EvalState) (hinv : EvalInv n_envs targets st) :
    EvalInv n_envs targets (l.foldl (stepEnvBody targets dones) st) := by
  induction l generalizing st with
  | nil => exact hinv
  | cons a as ih =>
    exact ih (fun i hi => hl i (List.mem_cons_of_mem a hi)) _
      (stepEnvBody_inv n_envs targets dones st a
        (hl a (List.mem_cons_self a as)) hinv)

/-- One `while` iteration preserves the invariant. -/
theorem evalWhileBody_inv (n_envs : Nat) (targets : Nat → Nat)
    (st : EvalState) (step : (Nat → Int) × (Nat → Bool))
    (hinv : EvalInv n_envs targets st) :
    EvalInv n_envs targets (evalWhileBody n_envs targets st step) := by
  obtain ⟨hle, hlen, hll⟩ := hinv
  unfold evalWhileBody
  exact foldl_stepEnvBody_inv n_envs targets step.2 (List.range n_envs)
    (fun i hi => List.mem_range.mp hi) _ ⟨hle, hlen, hll⟩

/-- The invariant is preserved by folding the `while` body over any trace. -/
theorem foldl_evalWhileBody_inv (n : Nat) (targets : Nat → Nat)
    (steps : List ((Nat → Int) × (Nat → Bool))) (st : EvalState)
    (hinv : EvalInv n targets st) :
    EvalInv n targets (steps.foldl (evalWhileBody n targets) st) := by
  induction steps generalizing st with
  | nil => exact hinv
  | cons a as ih => exact ih _ (evalWhileBody_inv n targets st a hinv)

/-- The invariant holds after any run of the loop. -/
theorem evalRun_inv (m n : Nat) (steps : List ((Nat → Int) × (Nat → Bool))) :
    EvalInv n (targetsFun m n) (evalRun m n steps) :=
  foldl_evalWhileBody_inv n (targetsFun m n) steps initialEvalState
    ⟨fun i => Nat.zero_le _, by simp [initialEvalState],
      by simp [initialEvalState]⟩

/-- C10: in the no-Monitor branch, after any trace of `env.step` outcomes,
the `while` condition is false exactly when every environment has reached
its target; when the loop exits it has recorded exactly `n_eval_episodes`
episode rewards and exactly as many episode lengths; and a done signal in an
environment that already reached its target changes nothing at all. -/
theorem C10_exact_episode_count (m n : Nat) (hn : 0 < n)
    (steps : List ((Nat → Int) × (Nat → Bool))) :
    (whileCond n (targetsFun m n) (evalRun m n steps) = false ↔
      ∀ i, i < n → (evalRun m n steps).episode_counts i = targetsFun m n i) ∧
    (whileCond n (targetsFun m n) (evalRun m n steps) = false →
      (evalRun m n steps).episode_rewards.length = m ∧
      (evalRun m n steps).episode_lengths.length = m) ∧
    (∀ dones : Nat → Bool, ∀ st : EvalState, ∀ i : Nat,
      ¬ st.episode_counts i < targetsFun m n i →
      stepEnvBody (targetsFun m n) dones st i = st) := by
  obtain ⟨hle, hlen, hll⟩ := evalRun_inv m n steps
  have hcond : whileCond n (targetsFun m n) (evalRun m n steps) = false ↔
      ∀ i, i < n → (evalRun m n steps).episode_counts i = targetsFun m n i := by
    unfold whileCond
    rw [← Bool.not_eq_true, List.any_eq_true]
    constructor
    · intro hno i hi
      have hnlt : ¬ ((evalRun m n steps).episode_counts i < targetsFun m n i) := by
        intro hlt
        exact hno ⟨i, List.mem_range.mpr hi, decide_eq_true hlt⟩
      have := hle i
      omega
    · rintro hall ⟨i, hi, hdec⟩
      rw [List.mem_range] at hi
      rw [decide_eq_true_eq] at hdec
      rw [hall i hi] at hdec
      omega
  refine ⟨hcond, ?_, ?_⟩
  · intro hdone
    have heq := hcond.mp hdone
    have hsum : ∑ i ∈ Finset.range n, (evalRun m n steps).episode_counts i
        = m := by
      rw [Finset.sum_congr rfl
        (fun i hi => heq i (Finset.mem_range.mp hi))]
      exact sum_div_targets m n hn
    exact ⟨by rw [hlen, hsum], by rw [hll, hlen, hsum]⟩
  · intro dones st i hni
    unfold stepEnvBody
    rw [if_neg hni]

/-- Witness for `C10_exact_episode_count` at `m = 10, n = 3` and a 4-step
trace in which every environment is done at every step. -/
theorem C10_exact_episode_count_witness :
    0 < 3 ∧
    ((whileCond 3 (targetsFun 10 3)
        (evalRun 10 3 (List.replicate 4 (fun _ => (2 : Int), fun _ => true)))
          = false ↔
      ∀ i, i < 3 →
        (evalRun 10 3 (List.replicate 4 (fun _ => (2 : Int), fun _ => true))
          ).episode_counts i = targetsFun 10 3 i) ∧
    (whileCond 3 (targetsFun 10 3)
        (evalRun 10 3 (List.replicate 4 (fun _ => (2 : Int), fun _ => true)))
          = false →
      (evalRun 10 3 (List.replicate 4 (fun _ => (2 : Int), fun _ => true))
        ).episode_rewards.length = 10 ∧
      (evalRun 10 3 (List.replicate 4 (fun _ => (2 : Int), fun _ => true))
        ).episode_lengths.length = 10) ∧
    (∀ dones : Nat → Bool, ∀ st : EvalState, ∀ i : Nat,
      ¬ st.episode_counts i < targetsFun 10 3 i →
      stepEnvBody (targetsFun 10 3) dones st i = st)) :=
  ⟨by decide, C10_exact_episode_count 10 3 (by decide)
    (List.replicate 4 (fun _ => (2 : Int), fun _ => true))⟩

end SB3
